import Mathlib

/-!
Verification of the LizardByte/uno snapshot tool (src/update.py) against its
natural-language specification.

The development shallowly embeds the functions of update.py that the claims
concern: the paginated fetcher readthedocs_loop, the Crowdin chart renderer
and ordering logic of update_crowdin, the startup credential check of the
main block, the single-page assertion of update_codecov, and the open-graph
image extraction of update_github.

Modelling conventions:
- HTTP is a deterministic world function from URL to decoded response body;
  a body that fails JSON decoding is modelled as none.
- Snapshot records carry no structure the claims need, and are modelled as natural numbers.
- File writes through the persistence sink are modelled as an explicit list
  of (path, data) write events, in the order the code issues them.
- The while-loop of readthedocs_loop is interpreted with explicit fuel; the
  interpreter returns none exactly when the fuel runs out before the loop
  exits, so "every fuel gives none" expresses non-termination.
-/

/- ### Paginated fetcher: readthedocs_loop (src/update.py lines 340-371) -/

/-- Decoded JSON body of one pagination response.
`results` is none when the body has no "results" key (the code catches the
KeyError and keeps going); `next` is none when the body has no "next" key or
its value is null (both make the code set url to None and break). -/
structure PageData where
  results : Option (List Nat)
  next : Option String
deriving DecidableEq, Repr

/-- A deterministic HTTP world: the decoded body served at each URL, or none
when the body at that URL is not parseable as JSON (JSONDecodeError). -/
def World : Type := String → Option PageData

/-- Truthiness of the url taken from the "next" field, as tested by
`if not url: break` in the code: None and the empty string are falsy. -/
def nextTruthy : Option String → Bool
  | none => false
  | some u => decide (u ≠ "")

/-- Fuel-indexed interpreter of the `while True` loop of readthedocs_loop.
Each iteration GETs the current url, breaks on a JSON decode failure,
extends the accumulator with the "results" entries when present, then moves
to the "next" url, breaking when that url is falsy. Returns none exactly
when the fuel is exhausted before the loop breaks. -/
def loopFuel (w : World) : Nat → String → List Nat → Option (List Nat)
  | 0, _, _ => none
  | fuel + 1, url, acc =>
    match w url with
    | none => some acc
    | some page =>
      let acc2 := acc ++ page.results.getD []
      match page.next with
      | none => some acc2
      | some u => if u = "" then some acc2 else loopFuel w fuel u acc2

/-- Result of one readthedocs_loop call: the returned list and the list of
persistence-sink invocations (write_json_files calls) it performed. -/
structure LoopResult where
  results : List Nat
  writes : List (String × List Nat)
deriving DecidableEq, Repr

/-- readthedocs_loop: run the pagination loop from `url`, then, only when the
accumulated list is non-empty, write it once at `file_path`, and return it.
none means the loop had not terminated within `fuel` iterations. -/
def readthedocs_loop (w : World) (fuel : Nat) (url file_path : String) :
    Option LoopResult :=
  match loopFuel w fuel url [] with
  | none => none
  | some rs =>
    some { results := rs
           writes := if rs.isEmpty then [] else [(file_path, rs)] }

/-- The "results" entries contributed by one page (none contributes []). -/
def pageResults (page : PageData) : List Nat :=
  page.results.getD []

/-- The finite chain of successfully decoded pages the loop visits starting
at a url. The boolean is true when the chain ends because a url served a
malformed (non-JSON) body, false when it ends at a page whose "next" value
is absent, null or empty. -/
inductive Visits (w : World) : String → List PageData → Bool → Prop
  | malformed {url : String} :
      w url = none → Visits w url [] true
  | last {url : String} {page : PageData} :
      w url = some page → nextTruthy page.next = false →
      Visits w url [page] false
  | step {url u2 : String} {page : PageData} {rest : List PageData} {b : Bool} :
      w url = some page → page.next = some u2 → u2 ≠ "" →
      Visits w u2 rest b → Visits w url (page :: rest) b

theorem loopFuel_eq_of_visits {w : World} {url : String} {pages : List PageData}
    {b : Bool} (h : Visits w url pages b) :
    ∀ acc fuel, pages.length < fuel →
      loopFuel w fuel url acc = some (acc ++ pages.flatMap pageResults) := by
  induction h with
  | malformed hw =>
    intro acc fuel hf
    match fuel, hf with
    | f + 1, _ => simp [loopFuel, hw]
  | last hw hn =>
    rename_i url page
    intro acc fuel hf
    match fuel, hf with
    | f + 1, _ =>
      rw [show loopFuel w (f + 1) url acc =
        (match w url with
         | none => some acc
         | some page =>
           let acc2 := acc ++ page.results.getD []
           match page.next with
           | none => some acc2
           | some u => if u = "" then some acc2 else loopFuel w f u acc2) from rfl,
        hw]
      match hp : page.next with
      | none => simp [hp, pageResults]
      | some u =>
        rw [hp] at hn
        simp only [nextTruthy, decide_eq_false_iff_not, not_not] at hn
        simp [hp, hn, pageResults]
  | step hw hn hne _ ih =>
    rename_i url u2 page rest b hv
    intro acc fuel hf
    match fuel, hf with
    | f + 1, hf2 =>
      rw [show loopFuel w (f + 1) url acc =
        (match w url with
         | none => some acc
         | some page =>
           let acc2 := acc ++ page.results.getD []
           match page.next with
           | none => some acc2
           | some u => if u = "" then some acc2 else loopFuel w f u acc2) from rfl,
        hw]
      simp only [hn, if_neg hne]
      have hlen : rest.length < f := by
        simp only [List.length_cons] at hf2
        omega
      rw [ih (acc ++ page.results.getD []) f hlen]
      simp [pageResults, List.append_assoc]

/-- C1: for every finite sequence of pages, readthedocs_loop returns exactly
the concatenation of the "results" entries of each page in original API order
(no deduplication), and the persistence sink is invoked exactly once with
that list when it is non-empty and never when it is empty. -/
theorem collect_concat_persist_once (w : World) (url path : String)
    (pages : List PageData) (b : Bool) (h : Visits w url pages b) :
    ∃ fuel res, readthedocs_loop w fuel url path = some res ∧
      res.results = pages.flatMap pageResults ∧
      res.writes = (if res.results.isEmpty then [] else [(path, res.results)]) := by
  refine ⟨pages.length + 1,
    { results := pages.flatMap pageResults
      writes := if (pages.flatMap pageResults).isEmpty then []
                else [(path, pages.flatMap pageResults)] }, ?_, rfl, rfl⟩
  simp [readthedocs_loop,
    loopFuel_eq_of_visits h [] (pages.length + 1) (Nat.lt_succ_self _)]

/-- Three-page world of the claim: pages with 2, 2 and 1 results, the last
one with no "next" value; record 2 appears twice, so no deduplication. -/
def threePageWorld : World := fun url =>
  if url = "u1" then some { results := some [1, 2], next := some "u2" }
  else if url = "u2" then some { results := some [2, 4], next := some "u3" }
  else if url = "u3" then some { results := some [5], next := none }
  else none

theorem collect_concat_persist_once_witness :
    ∃ fuel res, readthedocs_loop threePageWorld fuel "u1" "rtd/projects" = some res ∧
      res.results = [1, 2, 2, 4, 5] ∧
      res.writes = [("rtd/projects", [1, 2, 2, 4, 5])] := by
  obtain ⟨fuel, res, h1, h2, h3⟩ :=
    collect_concat_persist_once threePageWorld "u1" "rtd/projects"
      [{ results := some [1, 2], next := some "u2" },
       { results := some [2, 4], next := some "u3" },
       { results := some [5], next := none }] false
      (Visits.step rfl rfl (by decide)
        (Visits.step rfl rfl (by decide)
          (Visits.last rfl rfl)))
  have hres : res.results = [1, 2, 2, 4, 5] := by rw [h2]; rfl
  refine ⟨fuel, res, h1, hres, ?_⟩
  rw [h3, hres]
  rfl

/-- A page whose body has no "results" key and whose "next" key holds `u`. -/
def pageOnlyNext (u : String) : PageData :=
  { results := none, next := some u }

/-- A two-url world whose "next" cursors form a cycle: cycleA points to
cycleB and cycleB points back to cycleA, both bodies valid JSON. -/
def cyclicWorld : World := fun url =>
  if url = "cycleA" then some (pageOnlyNext "cycleB")
  else if url = "cycleB" then some (pageOnlyNext "cycleA")
  else none

theorem loopFuel_cyclic_none : ∀ fuel acc,
    loopFuel cyclicWorld fuel "cycleA" acc = none ∧
    loopFuel cyclicWorld fuel "cycleB" acc = none := by
  intro fuel
  induction fuel with
  | zero => exact fun acc => ⟨rfl, rfl⟩
  | succ n ih =>
    intro acc
    constructor
    · rw [show loopFuel cyclicWorld (n + 1) "cycleA" acc =
        loopFuel cyclicWorld n "cycleB" (acc ++ []) from rfl]
      exact (ih (acc ++ [])).2
    · rw [show loopFuel cyclicWorld (n + 1) "cycleB" acc =
        loopFuel cyclicWorld n "cycleA" (acc ++ []) from rfl]
      exact (ih (acc ++ [])).1

/-- C2: the claim says readthedocs_loop terminates even when a "next" cursor
points back to an already-visited URL. The code has no cycle guard: on the
two-page cyclic world the loop never exits, i.e. for every fuel bound the
interpreter still has not terminated. -/
theorem readthedocs_loop_cycle_diverges :
    ∀ fuel, readthedocs_loop cyclicWorld fuel "cycleA" "rtd/projects" = none := by
  intro fuel
  unfold readthedocs_loop
  rw [(loopFuel_cyclic_none fuel []).1]

/-- C5: when a url in the chain serves a non-JSON body, the loop stops
normally and returns (persisting when non-empty) exactly the records
accumulated from the successfully decoded pages before the malformed one. -/
theorem collect_stops_at_malformed (w : World) (url path : String)
    (pages : List PageData) (h : Visits w url pages true) :
    ∃ fuel res, readthedocs_loop w fuel url path = some res ∧
      res.results = pages.flatMap pageResults ∧
      res.writes = (if res.results.isEmpty then [] else [(path, res.results)]) := by
  refine ⟨pages.length + 1,
    { results := pages.flatMap pageResults
      writes := if (pages.flatMap pageResults).isEmpty then []
                else [(path, pages.flatMap pageResults)] }, ?_, rfl, rfl⟩
  simp [readthedocs_loop,
    loopFuel_eq_of_visits h [] (pages.length + 1) (Nat.lt_succ_self _)]

/-- World with one good page whose "next" url serves a malformed body. -/
def malformedTailWorld : World := fun url =>
  if url = "a" then some { results := some [9], next := some "bad" }
  else none

/-- World whose very first page is malformed. -/
def malformedFirstWorld : World := fun _ => none

theorem collect_stops_at_malformed_witness :
    (∃ fuel res, readthedocs_loop malformedTailWorld fuel "a" "p" = some res ∧
      res.results = [9] ∧ res.writes = [("p", [9])]) ∧
    (∃ fuel res, readthedocs_loop malformedFirstWorld fuel "m" "p" = some res ∧
      res.results = [] ∧ res.writes = []) := by
  constructor
  · obtain ⟨fuel, res, h1, h2, h3⟩ :=
      collect_stops_at_malformed malformedTailWorld "a" "p"
        [{ results := some [9], next := some "bad" }]
        (Visits.step rfl rfl (by decide) (Visits.malformed rfl))
    have hres : res.results = [9] := by rw [h2]; rfl
    refine ⟨fuel, res, h1, hres, ?_⟩
    rw [h3, hres]
    rfl
  · obtain ⟨fuel, res, h1, h2, h3⟩ :=
      collect_stops_at_malformed malformedFirstWorld "m" "p" []
        (Visits.malformed rfl)
    have hres : res.results = [] := by rw [h2]; rfl
    refine ⟨fuel, res, h1, hres, ?_⟩
    rw [h3, hres]
    rfl

/- ### Chart renderer and ordering: update_crowdin (src/update.py 130-229) -/

/-- One per-language progress entry as served by the localization API:
language id and display name with translation and approval completion
percentages. -/
structure ProgressEntry where
  langId : String
  langName : String
  translationProgress : ℚ
  approvalProgress : ℚ
deriving DecidableEq, Repr

/-- The bars drawn for one chart row: whether the grey background track was
added, the widths of the translation and approval overlay rectangles when
drawn, and the numeric percentage printed as the text label of the row. -/
structure RenderedRow where
  track : Bool
  translationBar : Option ℚ
  approvalBar : Option ℚ
  label : ℚ

/-- Rendering of one row of the SVG chart. Mirrors the loop body of
update_crowdin: the progress values are first divided by 100.0 and the
resulting fractions are then compared against 100 and 0 in the three bar
conditions; overlay widths scale progress_width = 160 by the fraction. -/
def renderRow (e : ProgressEntry) : RenderedRow :=
  let translation_progress : ℚ := e.translationProgress / 100
  let approval_progress : ℚ := e.approvalProgress / 100
  { track := decide (translation_progress < 100)
    translationBar :=
      if translation_progress > 0 ∧ approval_progress < 100
      then some (160 * translation_progress) else none
    approvalBar :=
      if approval_progress > 0 then some (160 * approval_progress) else none
    label := e.translationProgress }

/-- The Python sort key of update_crowdin: the tuple
(-approvalProgress, -translationProgress, language name), compared
lexicographically as Python compares tuples. -/
def sortKey (e : ProgressEntry) : Lex (ℚ × Lex (ℚ × String)) :=
  toLex (-e.approvalProgress, toLex (-e.translationProgress, e.langName))

/-- Ordering used by data.sort: ascending in the Python sort key. -/
def sortKeyLe (a b : ProgressEntry) : Prop :=
  sortKey a ≤ sortKey b

instance : DecidableRel sortKeyLe := fun a b => by
  unfold sortKeyLe
  infer_instance

instance : IsTotal ProgressEntry sortKeyLe :=
  ⟨fun a b => le_total (sortKey a) (sortKey b)⟩

instance : IsTrans ProgressEntry sortKeyLe :=
  ⟨fun _ _ _ hab hbc => le_trans hab hbc⟩

/-- The ordering rule as the spec words it: descending approval percentage,
then descending translation percentage, then ascending display name. -/
def specChartLe (a b : ProgressEntry) : Prop :=
  b.approvalProgress < a.approvalProgress ∨
    (a.approvalProgress = b.approvalProgress ∧
      (b.translationProgress < a.translationProgress ∨
        (a.translationProgress = b.translationProgress ∧
          a.langName ≤ b.langName)))

theorem sortKeyLe_iff (a b : ProgressEntry) : sortKeyLe a b ↔ specChartLe a b := by
  unfold sortKeyLe sortKey specChartLe
  simp [Prod.Lex.le_iff, neg_lt_neg_iff, neg_inj]

/-- The "ensure en is first" step of update_crowdin: find the index of the
first entry whose language id is "en" (ValueError, i.e. none, leaves the
list untouched), pop it and re-insert it at position 0. -/
def moveEnFront (l : List ProgressEntry) : List ProgressEntry :=
  match l.findIdx? (fun e => e.langId == "en") with
  | none => l
  | some i =>
    match l[i]? with
    | none => l
    | some x => x :: l.eraseIdx i

/-- The order in which update_crowdin renders chart rows: the list sorted by
the Python key, then the first "en" entry moved to the front. -/
def chartOrder (l : List ProgressEntry) : List ProgressEntry :=
  moveEnFront (List.insertionSort sortKeyLe l)

theorem cons_eraseIdx_perm {α : Type} :
    ∀ (l : List α) (i : Nat) (x : α), l[i]? = some x →
      List.Perm (x :: l.eraseIdx i) l := by
  intro l
  induction l with
  | nil => intro i x h; simp at h
  | cons y ys ih =>
    intro i x h
    cases i with
    | zero =>
      simp only [List.getElem?_cons_zero, Option.some.injEq] at h
      subst h
      simp [List.eraseIdx]
    | succ i =>
      simp only [List.getElem?_cons_succ] at h
      have h1 : x :: (y :: ys).eraseIdx (i + 1) = x :: y :: ys.eraseIdx i := by
        simp
      rw [h1]
      exact List.Perm.trans (List.Perm.swap y x (ys.eraseIdx i))
        (List.Perm.cons y (ih i x h))

theorem moveEnFront_perm (l : List ProgressEntry) :
    List.Perm (moveEnFront l) l := by
  unfold moveEnFront
  split
  · exact List.Perm.refl l
  · split
    · exact List.Perm.refl l
    · rename_i x h2
      exact cons_eraseIdx_perm l _ x h2

theorem moveEnFront_head {l : List ProgressEntry}
    (h : ∃ e ∈ l, e.langId = "en") :
    ∃ x tl, moveEnFront l = x :: tl ∧ x.langId = "en" := by
  obtain ⟨e, he, hid⟩ := h
  have hex : ∃ x, x ∈ l ∧ (fun e : ProgressEntry => e.langId == "en") x = true :=
    ⟨e, he, by simp [hid]⟩
  have hfind := List.findIdx?_eq_some_of_exists hex
  unfold moveEnFront
  split
  · rename_i hnone
    rw [hnone] at hfind
    cases hfind
  · rename_i i heq1
    obtain ⟨hlt, hp, _⟩ := List.findIdx?_eq_some_iff_getElem.mp heq1
    split
    · rename_i hnone2
      rw [List.getElem?_eq_getElem hlt] at hnone2
      cases hnone2
    · rename_i x heq2
      rw [List.getElem?_eq_getElem hlt] at heq2
      injection heq2 with h3
      subst h3
      exact ⟨_, _, rfl, by simpa using hp⟩

/-- An entry with translation 100 and approval 100. -/
def entBoth100 : ProgressEntry :=
  { langId := "aa", langName := "A", translationProgress := 100, approvalProgress := 100 }

/-- An entry with translation 0 and approval 0. -/
def entBoth0 : ProgressEntry :=
  { langId := "aa", langName := "A", translationProgress := 0, approvalProgress := 0 }

/-- An entry with translation 100 and approval 0. -/
def entT100A0 : ProgressEntry :=
  { langId := "aa", langName := "A", translationProgress := 100, approvalProgress := 0 }

/-- C3: the code divides each percentage by 100.0 and then compares the
resulting fraction against 100, so the background-track condition
(translation_progress < 100) and the approval part of the translation-bar
condition (approval_progress < 100) hold for every percentage in [0, 100].
At translation = 100, approval = 100 the code therefore still draws the
background track and a full-width translation bar, where the claim says
neither is drawn. The other particulars of the claim hold: translation = 0 draws
no translation bar, and translation = 100 with approval = 0 draws a
full-width (160) translation bar and no approval bar. -/
theorem renderRow_bar_conditions :
    (renderRow entBoth100).track = true ∧
    (renderRow entBoth100).translationBar = some 160 ∧
    (renderRow entBoth0).translationBar = none ∧
    (renderRow entT100A0).translationBar = some 160 ∧
    (renderRow entT100A0).approvalBar = none := by
  refine ⟨?_, ?_, ?_, ?_, ?_⟩
  · simp only [renderRow, decide_eq_true_eq]
    norm_num [entBoth100]
  · simp only [renderRow]
    rw [if_pos (by norm_num [entBoth100])]
    norm_num [entBoth100]
  · simp only [renderRow]
    rw [if_neg (by norm_num [entBoth0])]
  · simp only [renderRow]
    rw [if_pos (by norm_num [entT100A0])]
    norm_num [entT100A0]
  · simp only [renderRow]
    rw [if_neg (by norm_num [entT100A0])]

/-- The "en" entry of the ordering example in the claim: translation 80, approval 50. -/
def exEn : ProgressEntry :=
  { langId := "en", langName := "English",
    translationProgress := 80, approvalProgress := 50 }

/-- The "fr" entry of the ordering example in the claim: translation 100, approval 100. -/
def exFr : ProgressEntry :=
  { langId := "fr", langName := "French",
    translationProgress := 100, approvalProgress := 100 }

/-- The "de" entry of the ordering example in the claim: translation 100, approval 90. -/
def exDe : ProgressEntry :=
  { langId := "de", langName := "German",
    translationProgress := 100, approvalProgress := 90 }

/-- The ordering example of the claim in its given order. -/
def exampleEntries : List ProgressEntry := [exEn, exFr, exDe]

theorem sortKeyLe_fr_de : sortKeyLe exFr exDe :=
  (sortKeyLe_iff exFr exDe).mpr (by norm_num [specChartLe, exFr, exDe])

theorem not_sortKeyLe_en_fr : ¬ sortKeyLe exEn exFr := fun hc => by
  have h := (sortKeyLe_iff exEn exFr).mp hc
  norm_num [specChartLe, exEn, exFr] at h

theorem not_sortKeyLe_en_de : ¬ sortKeyLe exEn exDe := fun hc => by
  have h := (sortKeyLe_iff exEn exDe).mp hc
  norm_num [specChartLe, exEn, exDe] at h

theorem insertionSort_example :
    List.insertionSort sortKeyLe exampleEntries = [exFr, exDe, exEn] := by
  have s1 : List.insertionSort sortKeyLe exampleEntries
      = List.orderedInsert sortKeyLe exEn
          (List.orderedInsert sortKeyLe exFr [exDe]) := rfl
  have s2 : List.orderedInsert sortKeyLe exFr [exDe] = [exFr, exDe] := by
    simp only [List.orderedInsert]
    rw [if_pos sortKeyLe_fr_de]
  have s3 : List.orderedInsert sortKeyLe exEn [exFr, exDe]
      = [exFr, exDe, exEn] := by
    simp only [List.orderedInsert]
    rw [if_neg not_sortKeyLe_en_fr, if_neg not_sortKeyLe_en_de]
  rw [s1, s2, s3]

theorem moveEnFront_example :
    moveEnFront [exFr, exDe, exEn] = [exEn, exFr, exDe] := by decide

/-- C4: update_crowdin renders entries in the order given by sorting with
the Python key (-approval, -translation, name) — equivalently, as the spec words it,
descending approval, then descending translation, then ascending display
name — and then moving the first "en" entry, when one exists, to the front;
on the example in the claim the resulting order is en, fr, de. -/
theorem chartOrder_sorted_en_first :
    (∀ a b, sortKeyLe a b ↔ specChartLe a b) ∧
    (∀ l, List.Perm (chartOrder l) l ∧
      List.Sorted sortKeyLe (List.insertionSort sortKeyLe l) ∧
      chartOrder l = moveEnFront (List.insertionSort sortKeyLe l) ∧
      ((∃ e ∈ l, e.langId = "en") →
        ∃ x tl, chartOrder l = x :: tl ∧ x.langId = "en")) ∧
    (chartOrder exampleEntries).map (fun e => e.langId) = ["en", "fr", "de"] := by
  refine ⟨sortKeyLe_iff,
    fun l => ⟨(moveEnFront_perm _).trans (List.perm_insertionSort sortKeyLe l),
      List.sorted_insertionSort sortKeyLe l, rfl, ?_⟩, ?_⟩
  · intro h
    obtain ⟨e, he, hid⟩ := h
    exact moveEnFront_head ⟨e, (List.mem_insertionSort sortKeyLe).mpr he, hid⟩
  · rw [show chartOrder exampleEntries = [exEn, exFr, exDe] by
      unfold chartOrder
      rw [insertionSort_example, moveEnFront_example]]
    rfl

theorem chartOrder_sorted_en_first_witness :
    (∃ x tl, chartOrder exampleEntries = x :: tl ∧ x.langId = "en") ∧
    sortKeyLe exFr exDe := by
  constructor
  · exact (chartOrder_sorted_en_first.2.1 exampleEntries).2.2.2
      ⟨exEn, by simp [exampleEntries], rfl⟩
  · exact (chartOrder_sorted_en_first.1 exFr exDe).mpr
      (by norm_num [specChartLe, exFr, exDe])

/- ### Per-project write order in update_crowdin (src/update.py 140-160) -/

/-- Observable output of one iteration of the per-project loop of
update_crowdin: the json write event issued for the progress file of the project
and the entry order in which the chart rows are subsequently rendered. -/
structure CrowdinProjectOutput where
  jsonWrite : String × List ProgressEntry
  chartRows : List ProgressEntry
deriving DecidableEq, Repr

/-- One iteration of the per-project loop of update_crowdin, in program
order: write_json_files is called on the progress data first; only then is
the list sorted in place, the first "en" entry moved to the front, and the
chart rendered row by row in that later order. -/
def crowdin_project (path : String) (data : List ProgressEntry) :
    CrowdinProjectOutput :=
  let write1 := (path, data)
  let data2 := chartOrder data
  { jsonWrite := write1, chartRows := data2 }

/-- The ordering example served in the order fr, en, de, so that the chart
order differs from the API order. -/
def shuffledEntries : List ProgressEntry := [exFr, exEn, exDe]

theorem insertionSort_shuffled :
    List.insertionSort sortKeyLe shuffledEntries = [exFr, exDe, exEn] := by
  have s1 : List.insertionSort sortKeyLe shuffledEntries
      = List.orderedInsert sortKeyLe exFr
          (List.orderedInsert sortKeyLe exEn [exDe]) := rfl
  have s2 : List.orderedInsert sortKeyLe exEn [exDe] = [exDe, exEn] := by
    simp only [List.orderedInsert]
    rw [if_neg not_sortKeyLe_en_de]
  have s3 : List.orderedInsert sortKeyLe exFr [exDe, exEn]
      = [exFr, exDe, exEn] := by
    simp only [List.orderedInsert]
    rw [if_pos sortKeyLe_fr_de]
  rw [s1, s2, s3]

/-- C10: for every project the progress json is written with the entries in
the original API-provided order, before the sort and the en move, while the
chart rows use the later sorted order; on the shuffled example the written
order therefore differs from the chart order. -/
theorem crowdin_json_before_sort :
    (∀ path data, (crowdin_project path data).jsonWrite = (path, data) ∧
      (crowdin_project path data).chartRows = chartOrder data) ∧
    (crowdin_project "crowdin/Proj" shuffledEntries).jsonWrite.2 = shuffledEntries ∧
    (crowdin_project "crowdin/Proj" shuffledEntries).chartRows ≠ shuffledEntries := by
  refine ⟨fun path data => ⟨rfl, rfl⟩, rfl, ?_⟩
  show chartOrder shuffledEntries ≠ shuffledEntries
  rw [chartOrder, insertionSort_shuffled, moveEnFront_example]
  decide

/- ### Startup credential check (src/update.py 397-435) -/

/-- The argparse argument values the main block reads: each is the supplied
string (possibly empty) or none when neither the flag nor the corresponding
environment variable provided a value. -/
structure Args where
  codecov_token : Option String
  crowdin_token : Option String
  discord_invite : Option String
  facebook_group_id : Option String
  facebook_page_id : Option String
  facebook_token : Option String
  github_repository_owner : Option String
  github_auth_token : Option String
  readthedocs_token : Option String
deriving DecidableEq, Repr

/-- Python truthiness of an optional string: None and "" are falsy. -/
def truthy : Option String → Bool
  | none => false
  | some s => decide (s ≠ "")

/-- The condition of the `if not args.codecov_token or ...` check in the
main block, listing exactly the eight arguments the code tests; the crowdin
token is not among them. -/
def credentialMissing (a : Args) : Bool :=
  !truthy a.codecov_token || !truthy a.discord_invite ||
  !truthy a.facebook_group_id || !truthy a.facebook_page_id ||
  !truthy a.facebook_token || !truthy a.github_repository_owner ||
  !truthy a.github_auth_token || !truthy a.readthedocs_token

/-- The names of the threads the main block starts once the check passes. -/
def jobNames : List String :=
  ["aur", "codecov", "crowdin", "discord", "facebook", "github", "patreon",
   "readthedocs"]

/-- Startup behaviour of the main block: when the check fires, missing_arg
prints the usage text and raises SystemExit(1), modelled as error 1, before
any thread is started — hence before any network call or file write; when
it passes, the eight source jobs are started. -/
def mainStartup (a : Args) : Except Nat (List String) :=
  if credentialMissing a then Except.error 1 else Except.ok jobNames

/-- C6: a missing (absent or empty) required credential makes the run print
usage and exit with the non-zero code 1 without starting any job; when all
required credentials are present the startup check does not abort and every
job starts. -/
theorem startup_credential_check (a : Args) :
    (credentialMissing a = true →
      mainStartup a = Except.error 1 ∧ (1 : Nat) ≠ 0) ∧
    (credentialMissing a = false → mainStartup a = Except.ok jobNames) := by
  constructor
  · intro h
    exact ⟨by simp [mainStartup, h], one_ne_zero⟩
  · intro h
    simp [mainStartup, h]

/-- Args with every credential supplied and non-empty. -/
def argsFull : Args where
  codecov_token := some "c"
  crowdin_token := some "w"
  discord_invite := some "d"
  facebook_group_id := some "g"
  facebook_page_id := some "p"
  facebook_token := some "f"
  github_repository_owner := some "o"
  github_auth_token := some "t"
  readthedocs_token := some "r"

/-- argsFull with the codecov token absent. -/
def argsNoCodecov : Args := { argsFull with codecov_token := none }

/-- argsFull with the crowdin token absent (used for C9). -/
def argsNoCrowdin : Args := { argsFull with crowdin_token := none }

theorem startup_credential_check_witness :
    mainStartup argsNoCodecov = Except.error 1 ∧
    mainStartup argsFull = Except.ok jobNames :=
  ⟨((startup_credential_check argsNoCodecov).1 (by decide)).1,
    (startup_credential_check argsFull).2 (by decide)⟩

/-- C9: the startup check never reads the crowdin token — changing it never
changes the outcome of the check — and a run with every other credential present
but no crowdin token passes validation and starts all jobs, the crowdin job
included. -/
theorem crowdin_token_unchecked :
    (∀ a t, credentialMissing { a with crowdin_token := t }
      = credentialMissing a) ∧
    mainStartup argsNoCrowdin = Except.ok jobNames ∧
    "crowdin" ∈ jobNames := by
  refine ⟨fun a t => rfl, rfl, by decide⟩

/- ### Coverage-service job: update_codecov (src/update.py 103-127) -/

/-- The single size-capped (page_size=500) repository-listing page of the
coverage API: the "next" cursor (none models JSON null) and the names of
the listed repositories. -/
structure CodecovListing where
  next : Option String
  results : List String
deriving DecidableEq, Repr

/-- update_codecov after fetching the single listing page: the code asserts
that the next cursor is None, with the pagination message, and only then fetches
the coverage data of each listed repository (`cov` gives the decoded response
per name) and writes it under codecov/<name>. -/
def update_codecov (listing : CodecovListing) (cov : String → Nat) :
    Except String (List (String × Nat)) :=
  if listing.next.isSome then
    Except.error "More than 500 repos found, need to implement pagination."
  else
    Except.ok (listing.results.map fun name => ("codecov/" ++ name, cov name))

/-- C7: a non-null "next" cursor on the single listing page aborts the job
with the explicit pagination-not-implemented assertion message before any
per-repository fetch; a null cursor lets the job fetch and write coverage
data for every listed repository. -/
theorem codecov_single_page (listing : CodecovListing) (cov : String → Nat) :
    (listing.next ≠ none →
      update_codecov listing cov =
        Except.error "More than 500 repos found, need to implement pagination.") ∧
    (listing.next = none →
      update_codecov listing cov =
        Except.ok (listing.results.map fun name =>
          ("codecov/" ++ name, cov name))) := by
  constructor
  · intro h
    simp [update_codecov, Option.isSome_iff_ne_none.mpr h]
  · intro h
    simp [update_codecov, h]

theorem codecov_single_page_witness :
    update_codecov { next := some "page2", results := ["uno"] } (fun _ => 7) =
      Except.error "More than 500 repos found, need to implement pagination." ∧
    update_codecov { next := none, results := ["uno", "dos"] } (fun _ => 7) =
      Except.ok [("codecov/uno", 7), ("codecov/dos", 7)] := by
  constructor
  · exact (codecov_single_page { next := some "page2", results := ["uno"] }
      (fun _ => 7)).1 (by simp)
  · exact (codecov_single_page { next := none, results := ["uno", "dos"] }
      (fun _ => 7)).2 rfl

/- ### Code-hosting job: open-graph images, update_github (src/update.py 305-322) -/

/-- Whether `needle` occurs as a contiguous segment of `hay`. -/
def listContainsInfix (needle : List Char) : List Char → Bool
  | [] => needle.isEmpty
  | a :: rest => needle.isPrefixOf (a :: rest) || listContainsInfix needle rest

/-- Python substring containment `needle in hay` on strings. -/
def strIn (needle hay : String) : Bool :=
  listContainsInfix needle.toList hay.toList

/-- The GraphQL response for one repository, reduced to the single nested
field the code reads: some url when data.repository.openGraphImageUrl is
reachable, none when any step of that nested lookup raises KeyError. -/
structure GraphQLResp where
  openGraphImageUrl : Option String
deriving DecidableEq, Repr

/-- The open-graph image part of the update_github loop over repositories:
for each repository name, read the preview url from its GraphQL response; a
missing field raises SystemExit about the invalid GH_AUTH_TOKEN and aborts
the whole run; a url containing "avatars" is skipped; any other url is
downloaded and saved under github/openGraphImages/<name>. -/
def update_github_images (resp : String → GraphQLResp) :
    List String → Except String (List (String × String))
  | [] => Except.ok []
  | name :: rest =>
    match (resp name).openGraphImageUrl with
    | none => Except.error "\"GH_AUTH_TOKEN\" is invalid."
    | some url =>
      match update_github_images resp rest with
      | Except.error e => Except.error e
      | Except.ok saves =>
        if strIn "avatars" url then Except.ok saves
        else Except.ok (("github/openGraphImages/" ++ name, url) :: saves)

/-- The image-save events of the loop when every extraction succeeds: one
save per repository whose url does not contain "avatars". -/
def githubImageSaves (resp : String → GraphQLResp) (repos : List String) :
    List (String × String) :=
  repos.filterMap fun name =>
    match (resp name).openGraphImageUrl with
    | none => none
    | some url =>
      if strIn "avatars" url then none
      else some ("github/openGraphImages/" ++ name, url)

/-- C8: when the GraphQL response of some repository lacks the nested
openGraphImageUrl field, the whole run aborts with the invalid-credential
message; when the field is present for every repository, the job saves
exactly the images whose urls are not placeholder avatar urls, each under
the image path of its repository. -/
theorem github_image_extraction (resp : String → GraphQLResp)
    (repos : List String) :
    ((∃ r ∈ repos, (resp r).openGraphImageUrl = none) →
      update_github_images resp repos =
        Except.error "\"GH_AUTH_TOKEN\" is invalid.") ∧
    ((∀ r ∈ repos, (resp r).openGraphImageUrl ≠ none) →
      update_github_images resp repos =
        Except.ok (githubImageSaves resp repos)) := by
  induction repos with
  | nil =>
    constructor
    · rintro ⟨r, hr, _⟩
      cases hr
    · intro _
      rfl
  | cons name rest ih =>
    constructor
    · rintro ⟨r, hr, hnone⟩
      cases hu : (resp name).openGraphImageUrl with
      | none => simp [update_github_images, hu]
      | some url =>
        have hrest : ∃ s ∈ rest, (resp s).openGraphImageUrl = none := by
          rcases List.mem_cons.mp hr with heq | hmem
          · subst heq
            rw [hu] at hnone
            cases hnone
          · exact ⟨r, hmem, hnone⟩
        simp [update_github_images, hu, ih.1 hrest]
    · intro hall
      have hname := hall name (List.mem_cons_self name rest)
      cases hu : (resp name).openGraphImageUrl with
      | none => exact absurd hu hname
      | some url =>
        have hrest := ih.2 fun s hs => hall s (List.mem_cons_of_mem name hs)
        cases hav : strIn "avatars" url with
        | true =>
          simp [update_github_images, hu, hrest, githubImageSaves, hav]
        | false =>
          simp [update_github_images, hu, hrest, githubImageSaves, hav]

/-- GraphQL world for the witness: repo alpha has a normal image url, repo
beta has a placeholder avatar url, and the response for repo gamma lacks the
field. -/
def ghResp : String → GraphQLResp := fun name =>
  if name = "alpha" then { openGraphImageUrl := some "https://img.example/a.png" }
  else if name = "beta" then { openGraphImageUrl := some "https://avatars.example/u1" }
  else { openGraphImageUrl := none }

theorem github_image_extraction_witness :
    update_github_images ghResp ["alpha", "beta"] =
      Except.ok [("github/openGraphImages/alpha", "https://img.example/a.png")] ∧
    update_github_images ghResp ["alpha", "gamma"] =
      Except.error "\"GH_AUTH_TOKEN\" is invalid." := by
  constructor
  · have h := (github_image_extraction ghResp ["alpha", "beta"]).2 (by decide)
    rw [h]
    rfl
  · exact (github_image_extraction ghResp ["alpha", "gamma"]).1
      ⟨"gamma", by decide, by decide⟩
